import Mathlib

/-!
Verification of the core of the NMS-Base-File-Editor repository.

The Python sources are shallowly embedded: byte strings become `List Nat`
(each entry a byte value), text becomes `String` / `List Char`, machine
integers become `Nat` with explicit masking where the source masks, and
code that can raise returns `Except`/`Option`.  The external `lz4.block`
C library is not part of the repository; block decompression is modelled
faithfully from the documented LZ4 block format
(`lz4BlockDecompress`), and compression is kept abstract: theorems about
the compressing side are parameterised over any compressor that the
decompressor inverts, which is the documented contract of
`lz4.block.compress`/`lz4.block.decompress`.
-/

namespace NMSVerify

/-! ## Byte-level utilities (recompressor.py / save_extractor.py) -/

abbrev Byte := Nat

/-- Little-endian value of a byte string, as in `int.from_bytes(data, 'little')`. -/
def fromLE : List Byte → Nat
  | [] => 0
  | b :: bs => b + 256 * fromLE bs

/-- `uint32` from save_extractor.py: little-endian value masked to 32 bits. -/
def uint32 (bs : List Byte) : Nat := fromLE bs % 4294967296

/-- The four bytes of `struct.pack('<I', n)` for `n < 2^32`
(`compress_json_bytes` builds headers this way). -/
def toLE4 (n : Nat) : List Byte :=
  [n % 256, n / 256 % 256, n / 65536 % 256, n / 16777216 % 256]

/-- `BLOCK_MAGIC` from recompressor.py. -/
def MAGIC : Nat := 0xFEEDA1E5

/-- The little-endian byte pattern of the magic, `b'\xe5\xa1\xed\xfe'`. -/
def magicBytes : List Byte := [0xE5, 0xA1, 0xED, 0xFE]

/-- `bytes.find(pattern)`: index of the first occurrence of `pat`, as an
`Option` instead of `-1`. -/
def findSub (pat : List Byte) : List Byte → Option Nat
  | [] => if pat.isPrefixOf ([] : List Byte) then some 0 else none
  | s@(_ :: t) => if pat.isPrefixOf s then some 0 else (findSub pat t).map (· + 1)

/-! ## A model of `lz4.block.decompress` (external library)

The LZ4 block format: a sequence of sequences, each a token byte
(high nibble literal count, low nibble match length minus 4, 15 meaning
extension bytes follow), literal bytes, and, unless the input ends after
the literals, a 2-byte little-endian match offset and the match-length
extension.  Decompression fails on truncated input, a zero or
out-of-range offset, or output exceeding the supplied buffer size
(`uncompressed_size=` in the Python binding). -/

/-- Read a length extension: add 255-valued bytes until a byte below 255. -/
def readLenExt : Nat → Nat → List Byte → Option (Nat × List Byte)
  | 0, _, _ => none
  | _ + 1, _, [] => none
  | fuel + 1, acc, b :: rest =>
    if b = 255 then readLenExt fuel (acc + 255) rest else some (acc + b, rest)

/-- Append `count` bytes copied from `offset` bytes before the end of `out`
(overlapping copies re-read freshly written bytes, as in LZ4). -/
def matchCopy : Nat → List Byte → Nat → List Byte
  | 0, out, _ => out
  | count + 1, out, offset => matchCopy count (out ++ [out.getD (out.length - offset) 0]) offset

def lz4Go (maxSize : Nat) : Nat → List Byte → List Byte → Option (List Byte)
  | 0, _, _ => none
  | _ + 1, _, [] => none
  | fuel + 1, out, tok :: r0 =>
    (if tok / 16 = 15 then readLenExt fuel (tok / 16) r0 else some (tok / 16, r0)).bind
      fun (litLen, r1) =>
        if r1.length < litLen then none
        else
          let out2 := out ++ r1.take litLen
          if maxSize < out2.length then none
          else
            match r1.drop litLen with
            | [] => some out2
            | [_] => none
            | o1 :: o2 :: r3 =>
              let offset := o1 + 256 * o2
              if offset = 0 then none
              else if out2.length < offset then none
              else
                (if tok % 16 = 15 then readLenExt fuel 0 r3 else some (0, r3)).bind
                  fun (ext, r4) =>
                    let matchLen := tok % 16 + ext + 4
                    if maxSize < out2.length + matchLen then none
                    else lz4Go maxSize fuel (matchCopy matchLen out2 offset) r4

/-- Model of `lz4.block.decompress(src, uncompressed_size=n)`. -/
def lz4BlockDecompress (src : List Byte) (uncompressedSize : Nat) : Option (List Byte) :=
  lz4Go uncompressedSize (src.length + 1) [] src

/-! ## `decompress_save_file`

Both copies of the decoder (src/utils/save_extractor.py and
src/extract_nms_to_save_mapped_json.py) run the same cursor loop over a
`BytesIO`; the loop is embedded as recursion over the unread suffix of
the input, which tracks `din.tell()` exactly (reads clamp at end of
input, and a `seek` past the end behaves like an empty suffix for every
later read and for the loop condition).  They differ only in the
handling of an LZ4 failure: the save_extractor.py copy raises
`ValueError` (modelled as `.error`), the extract_nms copy prints a
warning and breaks, returning the output accumulated so far. -/

/-- One block body (reads sizes, skips padding, reads and decompresses the
payload), shared shape of lines 71-83 of save_extractor.py; `next`
continues the surrounding loop and `onFail` is the copy-specific
behaviour on an LZ4 decompression failure. -/
def blockStep (lzd : List Byte → Nat → Option (List Byte))
    (next : List Byte → Except String (List Byte))
    (onFail : Except String (List Byte)) (s1 : List Byte) :
    Except String (List Byte) :=
  let csize := uint32 (s1.take 4)
  let usize := uint32 ((s1.drop 4).take 4)
  let rest := (s1.drop 12)
  let payload := rest.take csize
  if payload.length < csize then .ok []
  else
    match lzd payload usize with
    | some blockBytes => (next (rest.drop csize)).map (fun t => blockBytes ++ t)
    | none => onFail

/-- The decoding loop of `decompress_save_file` in src/utils/save_extractor.py
(raises on LZ4 failure).  `fuel` is structural and the wrappers below pass
more than the input length, which the loop never consumes. -/
def decompressLoopE (lzd : List Byte → Nat → Option (List Byte)) :
    Nat → List Byte → Except String (List Byte)
  | 0, _ => .ok []
  | _ + 1, [] => .ok []
  | fuel + 1, s@(_ :: _) =>
    if uint32 (s.take 4) = MAGIC then
      blockStep lzd (decompressLoopE lzd fuel) (.error "Failed to decompress block") (s.drop 4)
    else if s.length ≤ 4 then .ok []
    else
      match findSub magicBytes (s.drop 4) with
      | none => .ok []
      | some i =>
        let s2 := (s.drop 4).drop i
        if uint32 (s2.take 4) = MAGIC then
          blockStep lzd (decompressLoopE lzd fuel) (.error "Failed to decompress block") (s2.drop 4)
        else .ok []

/-- The decoding loop of `decompress_save_file` in
src/extract_nms_to_save_mapped_json.py (warns and breaks on LZ4 failure). -/
def decompressLoopW (lzd : List Byte → Nat → Option (List Byte)) :
    Nat → List Byte → List Byte
  | 0, _ => []
  | _ + 1, [] => []
  | fuel + 1, s@(_ :: _) =>
    if uint32 (s.take 4) = MAGIC then
      blockStepW lzd (decompressLoopW lzd fuel) (s.drop 4)
    else if s.length ≤ 4 then []
    else
      match findSub magicBytes (s.drop 4) with
      | none => []
      | some i =>
        let s2 := (s.drop 4).drop i
        if uint32 (s2.take 4) = MAGIC then
          blockStepW lzd (decompressLoopW lzd fuel) (s2.drop 4)
        else []
where
  blockStepW (lzd : List Byte → Nat → Option (List Byte))
      (next : List Byte → List Byte) (s1 : List Byte) : List Byte :=
    let csize := uint32 (s1.take 4)
    let usize := uint32 ((s1.drop 4).take 4)
    let rest := (s1.drop 12)
    let payload := rest.take csize
    if payload.length < csize then []
    else
      match lzd payload usize with
      | some blockBytes => blockBytes ++ next (rest.drop csize)
      | none => []

/-- `decompress_save_file` of src/utils/save_extractor.py, parameterised
over the LZ4 primitive. -/
def decompress_save_file_with (lzd : List Byte → Nat → Option (List Byte))
    (data : List Byte) : Except String (List Byte) :=
  decompressLoopE lzd (data.length + 1) data

/-- `decompress_save_file` of src/utils/save_extractor.py with the LZ4 model. -/
def decompress_save_file (data : List Byte) : Except String (List Byte) :=
  decompress_save_file_with lz4BlockDecompress data

/-- `decompress_save_file` of src/extract_nms_to_save_mapped_json.py,
parameterised over the LZ4 primitive. -/
def decompress_save_file_warn_with (lzd : List Byte → Nat → Option (List Byte))
    (data : List Byte) : List Byte :=
  decompressLoopW lzd (data.length + 1) data

/-- `decompress_save_file` of src/extract_nms_to_save_mapped_json.py with
the LZ4 model. -/
def decompress_save_file_warn (data : List Byte) : List Byte :=
  decompress_save_file_warn_with lz4BlockDecompress data

/-! ## `compress_json_bytes` (recompressor.py) -/

/-- The chunking loop of `compress_json_bytes`: split into chunks of at
most `0x80000` bytes, compress each, and emit
`struct.pack('<IIII', MAGIC, csize, usize, 0)` followed by the compressed
chunk.  `struct.pack` raises when a field does not fit 32 bits; that is
modelled as `none`. -/
def compressChunks (lzc : List Byte → List Byte) : Nat → List Byte → Option (List Byte × Nat)
  | 0, [] => some ([], 0)
  | _ + 1, [] => some ([], 0)
  | 0, _ :: _ => none
  | fuel + 1, bs@(_ :: _) =>
    let chunk := bs.take 0x80000
    let comp := lzc chunk
    if comp.length < 4294967296 then
      match compressChunks lzc fuel (bs.drop 0x80000) with
      | some (rest, cnt) =>
        some (toLE4 MAGIC ++ toLE4 comp.length ++ toLE4 chunk.length ++ toLE4 0 ++ comp ++ rest,
          cnt + 1)
      | none => none
    else none

/-- `compress_json_bytes(json_bytes)`, returning `(blocks, block_count)`,
parameterised over the LZ4 compressor (`lz4.block.compress(..., store_size=False)`). -/
def compress_json_bytes_with (lzc : List Byte → List Byte) (jsonBytes : List Byte) :
    Option (List Byte × Nat) :=
  compressChunks lzc (jsonBytes.length + 1) jsonBytes

/-! ## C1: the block codec round-trips -/

lemma uint32_toLE4 {n : Nat} (h : n < 4294967296) : uint32 (toLE4 n) = n := by
  simp only [uint32, toLE4, fromLE]
  omega

lemma decompressLoopE_nil (lzd : List Byte → Nat → Option (List Byte)) (fuel : Nat) :
    decompressLoopE lzd fuel [] = .ok [] := by
  cases fuel <;> rfl

lemma take_len_append (l₁ l₂ : List Byte) : (l₁ ++ l₂).take l₁.length = l₁ := by
  rw [List.take_append_of_le_length (Nat.le_refl _), List.take_length]

lemma drop_len_append (l₁ l₂ : List Byte) : (l₁ ++ l₂).drop l₁.length = l₂ := by
  rw [List.drop_append_of_le_length (Nat.le_refl _), List.drop_length, List.nil_append]

lemma blockStep_eval (lzd : List Byte → Nat → Option (List Byte))
    (next : List Byte → Except String (List Byte)) (onFail : Except String (List Byte))
    (csz usz : Nat) (comp rest : List Byte)
    (hcsz : csz < 4294967296) (husz : usz < 4294967296) (hlen : comp.length = csz) :
    blockStep lzd next onFail (toLE4 csz ++ (toLE4 usz ++ (toLE4 0 ++ (comp ++ rest)))) =
      match lzd comp usz with
      | some b => (next rest).map (fun t => b ++ t)
      | none => onFail := by
  have e1 : (toLE4 csz ++ (toLE4 usz ++ (toLE4 0 ++ (comp ++ rest)))).take 4 = toLE4 csz := rfl
  have e2 : ((toLE4 csz ++ (toLE4 usz ++ (toLE4 0 ++ (comp ++ rest)))).drop 4).take 4 =
      toLE4 usz := rfl
  have e3 : (toLE4 csz ++ (toLE4 usz ++ (toLE4 0 ++ (comp ++ rest)))).drop 12 = comp ++ rest := rfl
  simp only [blockStep, e1, e2, e3, uint32_toLE4 hcsz, uint32_toLE4 husz]
  rw [← hlen, take_len_append, drop_len_append]
  simp

lemma decompressLoopE_block (lzd : List Byte → Nat → Option (List Byte)) (fuel : Nat)
    (csz usz : Nat) (comp rest : List Byte)
    (hcsz : csz < 4294967296) (husz : usz < 4294967296) (hlen : comp.length = csz) :
    decompressLoopE lzd (fuel + 1)
        (toLE4 MAGIC ++ (toLE4 csz ++ (toLE4 usz ++ (toLE4 0 ++ (comp ++ rest))))) =
      match lzd comp usz with
      | some b => (decompressLoopE lzd fuel rest).map (fun t => b ++ t)
      | none => .error "Failed to decompress block" := by
  have hcons : toLE4 MAGIC ++ (toLE4 csz ++ (toLE4 usz ++ (toLE4 0 ++ (comp ++ rest)))) =
      229 :: 161 :: 237 :: 254 :: (toLE4 csz ++ (toLE4 usz ++ (toLE4 0 ++ (comp ++ rest)))) := rfl
  rw [hcons]
  have hm : uint32 ((229 :: 161 :: 237 :: 254 ::
      (toLE4 csz ++ (toLE4 usz ++ (toLE4 0 ++ (comp ++ rest))))).take 4) = MAGIC := by
    rw [show (229 :: 161 :: 237 :: 254 ::
      (toLE4 csz ++ (toLE4 usz ++ (toLE4 0 ++ (comp ++ rest))))).take 4 =
      [229, 161, 237, 254] from rfl]
    decide
  simp only [decompressLoopE, hm, if_pos]
  rw [show (229 :: 161 :: 237 :: 254 ::
      (toLE4 csz ++ (toLE4 usz ++ (toLE4 0 ++ (comp ++ rest))))).drop 4 =
      toLE4 csz ++ (toLE4 usz ++ (toLE4 0 ++ (comp ++ rest))) from rfl]
  exact blockStep_eval lzd _ _ csz usz comp rest hcsz husz hlen

lemma decode_encode_aux (lzc : List Byte → List Byte) (lzd : List Byte → Nat → Option (List Byte))
    (Hrt : ∀ b : List Byte, b.length ≤ 524288 → lzd (lzc b) b.length = some b) :
    ∀ fuelC (x cont : List Byte) (cnt fuelD : Nat),
      compressChunks lzc fuelC x = some (cont, cnt) → cont.length < fuelD →
      decompressLoopE lzd fuelD cont = .ok x := by
  intro fuelC
  induction fuelC with
  | zero =>
    intro x cont cnt fuelD hc hlen
    cases x with
    | nil =>
      simp only [compressChunks, Option.some.injEq, Prod.mk.injEq] at hc
      rw [← hc.1, decompressLoopE_nil]
    | cons b bs => simp [compressChunks] at hc
  | succ f ih =>
    intro x cont cnt fuelD hc hlen
    cases x with
    | nil =>
      simp only [compressChunks, Option.some.injEq, Prod.mk.injEq] at hc
      rw [← hc.1, decompressLoopE_nil]
    | cons b bs =>
      simp only [compressChunks] at hc
      by_cases hfit : (lzc ((b :: bs).take 524288)).length < 4294967296
      · rw [if_pos hfit] at hc
        cases hrec : compressChunks lzc f ((b :: bs).drop 524288) with
        | none => rw [hrec] at hc; exact absurd hc (by simp)
        | some p =>
          obtain ⟨restC, cnt'⟩ := p
          rw [hrec] at hc
          simp only [Option.some.injEq, Prod.mk.injEq] at hc
          obtain ⟨hcont, hcnt⟩ := hc
          subst hcont
          cases fuelD with
          | zero => exact absurd hlen (Nat.not_lt_zero _)
          | succ fD =>
            have hchunk : ((b :: bs).take 524288).length ≤ 524288 := by
              simpa using List.length_take_le 524288 (b :: bs)
            have husz : ((b :: bs).take 524288).length < 4294967296 := by omega
            have hlen2 : restC.length < fD := by
              simp only [List.length_append, toLE4, List.length_cons, List.length_nil] at hlen
              omega
            rw [show toLE4 MAGIC ++ toLE4 (lzc ((b :: bs).take 524288)).length ++
                toLE4 ((b :: bs).take 524288).length ++ toLE4 0 ++
                lzc ((b :: bs).take 524288) ++ restC =
                toLE4 MAGIC ++ (toLE4 (lzc ((b :: bs).take 524288)).length ++
                (toLE4 ((b :: bs).take 524288).length ++ (toLE4 0 ++
                (lzc ((b :: bs).take 524288) ++ restC)))) from by
              simp [List.append_assoc]]
            rw [decompressLoopE_block lzd fD _ _ _ _ hfit husz rfl]
            rw [Hrt ((b :: bs).take 524288) hchunk]
            rw [ih ((b :: bs).drop 524288) restC cnt' fD hrec hlen2]
            simp [Except.map, List.take_append_drop]
      · rw [if_neg hfit] at hc; exact absurd hc (by simp)

lemma compressChunks_total (lzc : List Byte → List Byte)
    (Hb : ∀ b : List Byte, b.length ≤ 524288 → (lzc b).length < 4294967296) :
    ∀ (fuel : Nat) (x : List Byte), x.length < fuel →
      ∃ cont cnt, compressChunks lzc fuel x = some (cont, cnt) := by
  intro fuel
  induction fuel with
  | zero => intro x hx; exact absurd hx (Nat.not_lt_zero _)
  | succ f ih =>
    intro x hx
    cases x with
    | nil => exact ⟨[], 0, rfl⟩
    | cons b bs =>
      have hchunk : ((b :: bs).take 524288).length ≤ 524288 := by
        simpa using List.length_take_le 524288 (b :: bs)
      have hdrop : ((b :: bs).drop 524288).length < f := by
        simp only [List.length_drop, List.length_cons] at *
        omega
      obtain ⟨rest, cnt, hr⟩ := ih ((b :: bs).drop 524288) hdrop
      refine ⟨toLE4 MAGIC ++ toLE4 (lzc ((b :: bs).take 524288)).length ++
        toLE4 ((b :: bs).take 524288).length ++ toLE4 0 ++ lzc ((b :: bs).take 524288) ++ rest,
        cnt + 1, ?_⟩
      simp only [compressChunks]
      rw [if_pos (Hb _ hchunk), hr]

/-- C1: for every byte buffer `x`, encoding with `compress_json_bytes`
(chunks of at most `0x80000` bytes, each LZ4-compressed without an
embedded size, prefixed by the 16-byte little-endian header of magic
`0xFEEDA1E5`, compressed size, uncompressed chunk size and four zero
bytes) and decoding with `decompress_save_file` returns `x`.  The
theorem is parameterised over the external `lz4.block`
compress/decompress pair, assumed to invert each other on chunks of at
most `0x80000` bytes and to produce output whose size fits the 32-bit
header field. -/
theorem C1_block_codec_roundtrip
    (lzc : List Byte → List Byte) (lzd : List Byte → Nat → Option (List Byte))
    (Hrt : ∀ b : List Byte, b.length ≤ 524288 → lzd (lzc b) b.length = some b)
    (Hb : ∀ b : List Byte, b.length ≤ 524288 → (lzc b).length < 4294967296)
    (x : List Byte) :
    ∃ container blockCount,
      compress_json_bytes_with lzc x = some (container, blockCount) ∧
      decompress_save_file_with lzd container = .ok x := by
  obtain ⟨cont, cnt, hc⟩ := compressChunks_total lzc Hb (x.length + 1) x (Nat.lt_succ_self _)
  exact ⟨cont, cnt, hc,
    decode_encode_aux lzc lzd Hrt (x.length + 1) x cont cnt (cont.length + 1) hc
      (Nat.lt_succ_self _)⟩

/-- Witness for C1 at a concrete buffer, with a concrete codec pair
satisfying the round-trip hypotheses. -/
theorem C1_block_codec_roundtrip_witness :
    ∃ container blockCount,
      compress_json_bytes_with (fun b => b) [1, 2, 3] = some (container, blockCount) ∧
      decompress_save_file_with (fun b _ => some b) container = .ok [1, 2, 3] :=
  C1_block_codec_roundtrip (fun b => b) (fun b _ => some b)
    (fun _ _ => rfl) (fun b hb => by simpa using Nat.lt_of_le_of_lt hb (by norm_num)) [1, 2, 3]

/-! ## C3 / C5: failure behaviour and re-synchronisation of the decoder

Concrete containers: `blockA`/`blockB` are well-formed blocks whose LZ4
payloads (`[0x10, c]`: one literal) decompress to `[65]` and `[66]`;
`blockBad` declares a 1-byte payload `[0x10]` whose token announces a
literal that is not present, so `lz4.block.decompress` fails on it. -/

def blockA : List Byte := toLE4 MAGIC ++ toLE4 2 ++ toLE4 1 ++ toLE4 0 ++ [0x10, 65]

def blockB : List Byte := toLE4 MAGIC ++ toLE4 2 ++ toLE4 1 ++ toLE4 0 ++ [0x10, 66]

def blockBad : List Byte := toLE4 MAGIC ++ toLE4 1 ++ toLE4 1 ++ toLE4 0 ++ [0x10]

lemma blockStepEW (lzd : List Byte → Nat → Option (List Byte)) (f : Nat)
    (ih : ∀ s out, decompressLoopE lzd f s = .ok out → decompressLoopW lzd f s = out)
    (s1 : List Byte) (out : List Byte)
    (h : blockStep lzd (decompressLoopE lzd f) (.error "Failed to decompress block") s1 =
      .ok out) :
    decompressLoopW.blockStepW lzd (decompressLoopW lzd f) s1 = out := by
  simp only [blockStep] at h
  simp only [decompressLoopW.blockStepW]
  by_cases hlen : ((s1.drop 12).take (uint32 (s1.take 4))).length < uint32 (s1.take 4)
  · rw [if_pos hlen] at h
    rw [if_pos hlen]
    simp only [Except.ok.injEq] at h
    exact h
  · rw [if_neg hlen] at h
    rw [if_neg hlen]
    cases hd : lzd ((s1.drop 12).take (uint32 (s1.take 4))) (uint32 ((s1.drop 4).take 4)) with
    | none =>
      rw [hd] at h
      exact absurd h (by simp)
    | some bb =>
      rw [hd] at h
      replace h : Except.map (fun t => bb ++ t)
          (decompressLoopE lzd f ((s1.drop 12).drop (uint32 (s1.take 4)))) = Except.ok out := h
      show bb ++ decompressLoopW lzd f ((s1.drop 12).drop (uint32 (s1.take 4))) = out
      cases he : decompressLoopE lzd f ((s1.drop 12).drop (uint32 (s1.take 4))) with
      | error e =>
        rw [he] at h
        exact absurd h (by simp [Except.map])
      | ok t =>
        rw [he] at h
        simp only [Except.map, Except.ok.injEq] at h
        rw [ih _ _ he]
        exact h

lemma loopEW (lzd : List Byte → Nat → Option (List Byte)) :
    ∀ (fuel : Nat) (s out : List Byte),
      decompressLoopE lzd fuel s = .ok out → decompressLoopW lzd fuel s = out := by
  intro fuel
  induction fuel with
  | zero =>
    intro s out h
    simp only [decompressLoopE, Except.ok.injEq] at h
    simp only [decompressLoopW, ← h]
  | succ f ih =>
    intro s out h
    cases s with
    | nil =>
      simp only [decompressLoopE, Except.ok.injEq] at h
      simp only [decompressLoopW, ← h]
    | cons a t =>
      simp only [decompressLoopE] at h
      simp only [decompressLoopW]
      by_cases h1 : uint32 ((a :: t).take 4) = MAGIC
      · rw [if_pos h1] at h ⊢
        exact blockStepEW lzd f ih _ _ h
      · rw [if_neg h1] at h ⊢
        by_cases h2 : (a :: t).length ≤ 4
        · rw [if_pos h2] at h ⊢
          simp only [Except.ok.injEq] at h
          exact h
        · rw [if_neg h2] at h ⊢
          cases hf : findSub magicBytes ((a :: t).drop 4) with
          | none =>
            rw [hf] at h
            replace h : Except.ok [] = Except.ok out := h
            show [] = out
            simp only [Except.ok.injEq] at h
            exact h
          | some i =>
            rw [hf] at h
            replace h : (if uint32 ((((a :: t).drop 4).drop i).take 4) = MAGIC then
                blockStep lzd (decompressLoopE lzd f) (.error "Failed to decompress block")
                  ((((a :: t).drop 4).drop i).drop 4)
              else Except.ok []) = Except.ok out := h
            show (if uint32 ((((a :: t).drop 4).drop i).take 4) = MAGIC then
                decompressLoopW.blockStepW lzd (decompressLoopW lzd f) ((((a :: t).drop 4).drop i).drop 4)
              else []) = out
            by_cases h3 : uint32 ((((a :: t).drop 4).drop i).take 4) = MAGIC
            · rw [if_pos h3] at h ⊢
              exact blockStepEW lzd f ih _ _ h
            · rw [if_neg h3] at h ⊢
              simp only [Except.ok.injEq] at h
              exact h

/-- C3 counterexample: `decompress_save_file` (src/utils/save_extractor.py)
does raise on an input whose second block has an undecompressable LZ4
payload: it propagates a `ValueError` (modelled as `.error`) instead of
returning the accumulated output of the first block. -/
theorem C3_counterexample :
    decompress_save_file (blockA ++ blockBad) = .error "Failed to decompress block" := by
  rfl

/-- C3 amended: the copy of `decompress_save_file` in
src/extract_nms_to_save_mapped_json.py catches the LZ4 failure and
returns the accumulated output of the preceding blocks (as the second
conjunct shows on the C3 input, where it returns the first block's
payload), and it agrees with the save_extractor.py copy whenever the
latter does not raise; the save_extractor.py copy itself raises
`ValueError` on a block whose LZ4 decompression fails. -/
theorem C3_amended_decoder_failure :
    (∀ data out, decompress_save_file data = .ok out → decompress_save_file_warn data = out) ∧
    decompress_save_file_warn (blockA ++ blockBad) = [65] := by
  constructor
  · intro data out h
    exact loopEW lz4BlockDecompress (data.length + 1) data out h
  · rfl

/-- Witness for the C3 amended theorem: its first conjunct applied at a
concrete container that decodes without failure. -/
theorem C3_amended_decoder_failure_witness :
    decompress_save_file_warn (blockA ++ blockB) = [65, 66] :=
  C3_amended_decoder_failure.1 (blockA ++ blockB) [65, 66] (by rfl)

/-- C5 counterexample: on a well-formed block, 3 junk bytes, and a second
well-formed block, `decompress_save_file` does not return the
concatenation of the two payloads. -/
theorem C5_counterexample :
    decompress_save_file (blockA ++ [0, 0, 0] ++ blockB) ≠ .ok ([65] ++ [66]) := by
  rw [show decompress_save_file (blockA ++ [0, 0, 0] ++ blockB) = .ok [65] from rfl]
  simp

/-- C5 amended: with 3 junk bytes between the blocks the decoder returns
only the first block's payload — the 4-byte magic read consumes the
first byte of the second block's magic, and the subsequent byte-pattern
scan over the bytes after those 4 cannot see a magic that began inside
them; with 4 junk bytes the scan re-synchronises and both payloads are
returned. -/
theorem C5_amended_resync :
    decompress_save_file (blockA ++ [0, 0, 0] ++ blockB) = .ok [65] ∧
    decompress_save_file (blockA ++ [0, 0, 0, 0] ++ blockB) = .ok ([65] ++ [66]) :=
  ⟨rfl, rfl⟩

/-! ## JSON values

Python `json` values (dict / list / str / int / float / bool / None) as a
mutual inductive family; objects are ordered key-value sequences as in
Python dicts (insertion-ordered).  Floats keep their source literal: no
claim depends on float arithmetic. -/

mutual
inductive Json where
  | jnull : Json
  | jbool (b : Bool) : Json
  | jint (n : Int) : Json
  | jfloat (lit : String) : Json
  | jstr (s : String) : Json
  | jarr (xs : JsonList) : Json
  | jobj (xs : JsonObj) : Json
inductive JsonList where
  | nil : JsonList
  | cons (hd : Json) (tl : JsonList) : JsonList
inductive JsonObj where
  | nil : JsonObj
  | cons (k : String) (v : Json) (tl : JsonObj) : JsonObj
end

def JsonList.ofList : List Json → JsonList
  | [] => .nil
  | x :: xs => .cons x (JsonList.ofList xs)

def JsonObj.ofList : List (String × Json) → JsonObj
  | [] => .nil
  | (k, v) :: xs => .cons k v (JsonObj.ofList xs)

/-! ## A model of Python `json.loads` / `JSONDecoder.raw_decode`

The scanner of `json.decoder` in strict mode: whitespace is
`[ \t\n\r]`; values are objects, arrays, strings (with the standard
escapes, `\uXXXX` and surrogate pairs; raw control characters are
rejected), numbers (`-?(0|[1-9]\d*)(\.\d+)?([eE][+-]?\d+)?`), the
keywords `null`/`true`/`false`, and the constants
`NaN`/`Infinity`/`-Infinity`.  A Python lone surrogate is modelled as
U+FFFD (it only affects the decoded value, never whether parsing
succeeds).  The parser is a defunctionalised recursive-descent machine
(`pstep`) with structural fuel; every transition consumes input, so
`length + 2` fuel always suffices. -/

def jsonWs (c : Char) : Bool := c == ' ' || c == '\t' || c == '\n' || c == '\r'

def skipWs (cs : List Char) : List Char := cs.dropWhile jsonWs

def hexVal (c : Char) : Option Nat :=
  if '0' ≤ c ∧ c ≤ '9' then some (c.toNat - 48)
  else if 'a' ≤ c ∧ c ≤ 'f' then some (c.toNat - 87)
  else if 'A' ≤ c ∧ c ≤ 'F' then some (c.toNat - 55)
  else none

def hex4 (h1 h2 h3 h4 : Char) : Option Nat :=
  match hexVal h1, hexVal h2, hexVal h3, hexVal h4 with
  | some a, some b, some c, some d => some (((a * 16 + b) * 16 + c) * 16 + d)
  | _, _, _, _ => none

def escChar (c : Char) : Option Char :=
  if c = '"' then some '"'
  else if c = '\\' then some '\\'
  else if c = '/' then some '/'
  else if c = 'b' then some (Char.ofNat 8)
  else if c = 'f' then some (Char.ofNat 12)
  else if c = 'n' then some '\n'
  else if c = 'r' then some '\r'
  else if c = 't' then some '\t'
  else none

/-- Body of `json.decoder.scanstring` (after the opening quote), strict
mode: returns the decoded string and the input after the closing quote. -/
def scanstring : Nat → List Char → List Char → Option (String × List Char)
  | 0, _, _ => none
  | _ + 1, _, [] => none
  | fuel + 1, acc, c :: rest =>
    if c = '"' then some (String.mk acc.reverse, rest)
    else if c = '\\' then
      match rest with
      | [] => none
      | e :: rest2 =>
        if e = 'u' then
          match rest2 with
          | h1 :: h2 :: h3 :: h4 :: rest3 =>
            match hex4 h1 h2 h3 h4 with
            | none => none
            | some n =>
              if 0xD800 ≤ n ∧ n ≤ 0xDBFF then
                match rest3 with
                | '\\' :: 'u' :: g1 :: g2 :: g3 :: g4 :: rest4 =>
                  match hex4 g1 g2 g3 g4 with
                  | some m =>
                    if 0xDC00 ≤ m ∧ m ≤ 0xDFFF then
                      scanstring fuel
                        (Char.ofNat (0x10000 + (n - 0xD800) * 0x400 + (m - 0xDC00)) :: acc) rest4
                    else scanstring fuel (Char.ofNat 0xFFFD :: acc) rest3
                  | none => scanstring fuel (Char.ofNat 0xFFFD :: acc) rest3
                | _ => scanstring fuel (Char.ofNat 0xFFFD :: acc) rest3
              else if 0xDC00 ≤ n ∧ n ≤ 0xDFFF then
                scanstring fuel (Char.ofNat 0xFFFD :: acc) rest3
              else scanstring fuel (Char.ofNat n :: acc) rest3
          | _ => none
        else
          match escChar e with
          | some ec => scanstring fuel (ec :: acc) rest2
          | none => none
    else if c.toNat < 32 then none
    else scanstring fuel (c :: acc) rest

def natOfDigits (ds : List Char) : Nat := ds.foldl (fun a c => a * 10 + (c.toNat - 48)) 0

/-- `NUMBER_RE` of `json.scanner` matched at the head of the input,
returning the parsed number (`int` or `float`) and the rest. -/
def matchNumber (cs : List Char) : Option (Json × List Char) :=
  let sign : Bool × List Char :=
    match cs with
    | '-' :: t => (true, t)
    | _ => (false, cs)
  match sign.2 with
  | [] => none
  | c :: _ =>
    if ¬ c.isDigit then none
    else
      let intPart : List Char × List Char :=
        if c = '0' then ([c], sign.2.tail) else sign.2.span (·.isDigit)
      let fracPart : List Char × List Char :=
        match intPart.2 with
        | '.' :: t =>
          let ds := t.span (·.isDigit)
          if ds.1.isEmpty then ([], intPart.2) else ('.' :: ds.1, ds.2)
        | _ => ([], intPart.2)
      let expPart : List Char × List Char :=
        match fracPart.2 with
        | e :: t =>
          if e = 'e' ∨ e = 'E' then
            match t with
            | s :: t2 =>
              if s = '+' ∨ s = '-' then
                let ds := t2.span (·.isDigit)
                if ds.1.isEmpty then ([], fracPart.2) else (e :: s :: ds.1, ds.2)
              else
                let ds := t.span (·.isDigit)
                if ds.1.isEmpty then ([], fracPart.2) else (e :: ds.1, ds.2)
            | [] => ([], fracPart.2)
          else ([], fracPart.2)
        | [] => ([], fracPart.2)
      if fracPart.1.isEmpty ∧ expPart.1.isEmpty then
        let n : Int := Int.ofNat (natOfDigits intPart.1)
        some (.jint (if sign.1 then -n else n), intPart.2)
      else
        some (.jfloat (String.mk ((if sign.1 then ['-'] else []) ++
          intPart.1 ++ fracPart.1 ++ expPart.1)), expPart.2)

/-- Continuations of the defunctionalised `_scan_once`. -/
inductive PCont where
  | done : PCont
  | inArr (acc : List Json) (k : PCont) : PCont
  | inObj (acc : List (String × Json)) (key : String) (k : PCont) : PCont

inductive PState where
  | needValue (cs : List Char) : PState
  | haveValue (v : Json) (cs : List Char) : PState

def pstep : Nat → PState → PCont → Option (Json × List Char)
  | 0, _, _ => none
  | fuel + 1, .needValue cs, k =>
    match cs with
    | [] => none
    | c :: rest =>
      if c = '\x7b' then
        match skipWs rest with
        | '\x7d' :: r2 => pstep fuel (.haveValue (.jobj .nil) r2) k
        | '"' :: r2 =>
          match scanstring (r2.length + 1) [] r2 with
          | none => none
          | some (key, r3) =>
            match skipWs r3 with
            | ':' :: r4 => pstep fuel (.needValue (skipWs r4)) (.inObj [] key k)
            | _ => none
        | _ => none
      else if c = '[' then
        match skipWs rest with
        | ']' :: r2 => pstep fuel (.haveValue (.jarr .nil) r2) k
        | r2 => pstep fuel (.needValue r2) (.inArr [] k)
      else if c = '"' then
        match scanstring (rest.length + 1) [] rest with
        | none => none
        | some (s, r2) => pstep fuel (.haveValue (.jstr s) r2) k
      else if ("null".data).isPrefixOf cs then pstep fuel (.haveValue .jnull (cs.drop 4)) k
      else if ("true".data).isPrefixOf cs then pstep fuel (.haveValue (.jbool true) (cs.drop 4)) k
      else if ("false".data).isPrefixOf cs then pstep fuel (.haveValue (.jbool false) (cs.drop 5)) k
      else
        match matchNumber cs with
        | some (v, r2) => pstep fuel (.haveValue v r2) k
        | none =>
          if ("NaN".data).isPrefixOf cs then
            pstep fuel (.haveValue (.jfloat "NaN") (cs.drop 3)) k
          else if ("Infinity".data).isPrefixOf cs then
            pstep fuel (.haveValue (.jfloat "Infinity") (cs.drop 8)) k
          else if ("-Infinity".data).isPrefixOf cs then
            pstep fuel (.haveValue (.jfloat "-Infinity") (cs.drop 9)) k
          else none
  | fuel + 1, .haveValue v cs, k =>
    match k with
    | .done => some (v, cs)
    | .inArr acc k2 =>
      match skipWs cs with
      | ']' :: r2 => pstep fuel (.haveValue (.jarr (JsonList.ofList (v :: acc).reverse)) r2) k2
      | ',' :: r2 => pstep fuel (.needValue (skipWs r2)) (.inArr (v :: acc) k2)
      | _ => none
    | .inObj acc key k2 =>
      match skipWs cs with
      | '\x7d' :: r2 =>
        pstep fuel (.haveValue (.jobj (JsonObj.ofList ((key, v) :: acc).reverse)) r2) k2
      | ',' :: r2 =>
        match skipWs r2 with
        | '"' :: r3 =>
          match scanstring (r3.length + 1) [] r3 with
          | none => none
          | some (key2, r4) =>
            match skipWs r4 with
            | ':' :: r5 => pstep fuel (.needValue (skipWs r5)) (.inObj ((key, v) :: acc) key2 k2)
            | _ => none
        | _ => none
      | _ => none

/-- `JSONDecoder.raw_decode(s)`: parse one value starting at index 0 (no
leading-whitespace skip), returning the value and the end index. -/
def rawDecode (s : String) : Option (Json × Nat) :=
  match pstep (s.data.length + 2) (.needValue s.data) .done with
  | some (v, rest) => some (v, s.data.length - rest.length)
  | none => none

/-- `json.loads(s)`: skip leading whitespace, parse one value, skip
trailing whitespace, and fail with an `Extra data` error if input
remains.  Only the `Extra data`/other distinction of the error message is
observable in the sources. -/
def loads (s : String) : Except String Json :=
  match pstep (s.data.length + 2) (.needValue (skipWs s.data)) .done with
  | none => .error "Expecting value"
  | some (v, rest) => if (skipWs rest).isEmpty then .ok v else .error "Extra data"

/-- `True` exactly when `json.loads` succeeds. -/
def jsonParses (s : String) : Bool :=
  match loads s with
  | .ok _ => true
  | .error _ => false

/-! ## A model of `json.dumps` (default separators, `ensure_ascii=False`) -/

def hexDigit (n : Nat) : Char := if n < 10 then Char.ofNat (48 + n) else Char.ofNat (87 + n)

def escCharOut (c : Char) : List Char :=
  if c = '"' then ['\\', '"']
  else if c = '\\' then ['\\', '\\']
  else if c = '\n' then ['\\', 'n']
  else if c = '\t' then ['\\', 't']
  else if c = '\r' then ['\\', 'r']
  else if c = Char.ofNat 8 then ['\\', 'b']
  else if c = Char.ofNat 12 then ['\\', 'f']
  else if c.toNat < 32 then ['\\', 'u', '0', '0', hexDigit (c.toNat / 16), hexDigit (c.toNat % 16)]
  else [c]

def dumpsStr (s : String) : String :=
  "\"" ++ String.mk (s.data.map escCharOut).flatten ++ "\""

mutual
def dumpsVal : Json → String
  | .jnull => "null"
  | .jbool true => "true"
  | .jbool false => "false"
  | .jint n => toString n
  | .jfloat lit => lit
  | .jstr s => dumpsStr s
  | .jarr xs => "[" ++ dumpsList xs ++ "]"
  | .jobj xs => "\x7b" ++ dumpsObj xs ++ "\x7d"
def dumpsList : JsonList → String
  | .nil => ""
  | .cons x .nil => dumpsVal x
  | .cons x (.cons y tl) => dumpsVal x ++ ", " ++ dumpsList (.cons y tl)
def dumpsObj : JsonObj → String
  | .nil => ""
  | .cons k v .nil => dumpsStr k ++ ": " ++ dumpsVal v
  | .cons k v (.cons k2 v2 tl) => dumpsStr k ++ ": " ++ dumpsVal v ++ ", " ++ dumpsObj (.cons k2 v2 tl)
end

/-! ## `process_json_string_to_valid_json` (src/utils/save_metadata.py)

The three `re.sub` patterns are anchored at `$` and built from character
classes that exclude the character required next
(`[,:\s]*` before `"`, `[^"]*` before `"`, `\s*` before `:`), so the
backtracking engine matches them deterministically: each class consumes
its maximal run.  All three inputs are free of trailing whitespace (the
first comes from `.rstrip()`; a replacement cuts just before a character
outside `[,:\s]`, otherwise the match would have started earlier), so
`$` coincides with end-of-string.  `re.sub` substitutes the leftmost
match, and since every match runs to the end of the string there is at
most one.  Whitespace (`str.strip` default and regex `\s`) is modelled
by its ASCII subset. -/

def pyWs (c : Char) : Bool :=
  c == ' ' || c == '\t' || c == '\n' || c == '\r' || c == Char.ofNat 11 || c == Char.ofNat 12

/-- The regex class `[,:\s]`. -/
def classChar (c : Char) : Bool := c == ',' || c == ':' || pyWs c

/-- `str.rstrip` by a character predicate. -/
def rstripBy (p : Char → Bool) (cs : List Char) : List Char :=
  (cs.reverse.dropWhile p).reverse

/-- Match `"[^"]*"` at the head, returning the remainder. -/
def quotedAt : List Char → Option (List Char)
  | '"' :: r =>
    match r.dropWhile (fun c => !(c == '"')) with
    | '"' :: r2 => some r2
    | _ => none
  | _ => none

/-- Regex 1, `[,:\s]*"[^"]*"\s*:\s*$`, matched at this suffix. -/
def pat1At (cs : List Char) : Bool :=
  match quotedAt (cs.dropWhile classChar) with
  | some r2 =>
    match r2.dropWhile pyWs with
    | ':' :: r3 => (r3.dropWhile pyWs).isEmpty
    | _ => false
  | none => false

/-- Regex 2, `[,:\s]*"[^"]*"\s*$`, matched at this suffix. -/
def pat2At (cs : List Char) : Bool :=
  match quotedAt (cs.dropWhile classChar) with
  | some r2 => (r2.dropWhile pyWs).isEmpty
  | none => false

/-- Regex 3, `[,:\s]*"[^"]*$`, matched at this suffix. -/
def pat3At (cs : List Char) : Bool :=
  match cs.dropWhile classChar with
  | '"' :: r => r.all (fun c => !(c == '"'))
  | _ => false

/-- Index of the leftmost suffix satisfying `p` (the position at which
the regex engine first matches). -/
def firstMatchIdx (p : List Char → Bool) : List Char → Option Nat
  | [] => if p [] then some 0 else none
  | s@(_ :: t) => if p s then some 0 else (firstMatchIdx p t).map (· + 1)

/-- `re.sub(pattern, '', s)` for an end-anchored pattern: delete from the
leftmost match position to the end. -/
def reSubEnd (p : List Char → Bool) (cs : List Char) : List Char :=
  match firstMatchIdx p cs with
  | some i => cs.take i
  | none => cs

/-- The backwards quote-matching scan of lines 168-179 (fed the
characters before the final quote, in reverse order). -/
def scanQuoteBack : List Char → Bool → Bool
  | [], _ => false
  | c :: rest, escaped =>
    if c == '\\' then scanQuoteBack rest (!escaped)
    else if c == '"' && !escaped then true
    else scanQuoteBack rest false

/-- `truncated[:quote_pos].rstrip().rstrip(':').rstrip(',').rstrip()` of line 183. -/
def stripSeq183 (cs : List Char) : List Char :=
  rstripBy pyWs (rstripBy (· == ',') (rstripBy (· == ':') (rstripBy pyWs cs)))

/-- `truncated.rstrip().rstrip(',').rstrip(':').rstrip()` of line 154. -/
def stripSeq154 (cs : List Char) : List Char :=
  rstripBy pyWs (rstripBy (· == ':') (rstripBy (· == ',') (rstripBy pyWs cs)))

/-- The `while truncated:` loop of lines 158-187. -/
def repairLoop : Nat → List Char → List Char
  | 0, t => t
  | fuel + 1, t =>
    match t.getLast? with
    | none => t
    | some c =>
      if c == ',' || c == ':' then repairLoop fuel (rstripBy pyWs t.dropLast)
      else if c == '"' then
        if scanQuoteBack t.dropLast.reverse false then t
        else repairLoop fuel (stripSeq183 t.dropLast)
      else t

/-- `']' * max(0, open_brackets) + '\x7d' * max(0, open_braces)` for a
prefix `cs` (counts may be negative in Python; `Int.toNat` is `max 0`). -/
def closersFor (cs : List Char) : List Char :=
  List.replicate ((cs.count '[' : Int) - (cs.count ']' : Int)).toNat ']' ++
    List.replicate ((cs.count '\x7b' : Int) - (cs.count '\x7d' : Int)).toNat '\x7d'

/-- `str.rfind(c)` as an `Option`. -/
def rfindIdx (c : Char) : List Char → Option Nat
  | [] => none
  | x :: t =>
    match rfindIdx c t with
    | some i => some (i + 1)
    | none => if x == c then some 0 else none

/-- Lines 204-226: the more aggressive fallback, truncating at the
rightmost `}` or `]` (or keeping the old completion when there is
none), re-appending closers, and degrading to `"{}"` if the result still
fails to parse. -/
def aggressiveRepair (t6 : List Char) (openBrackets openBraces : Int) : String :=
  let lastBrace : Int := (rfindIdx '\x7d' t6).elim (-1) Int.ofNat
  let lastBracket : Int := (rfindIdx ']' t6).elim (-1) Int.ofNat
  let lastValid : Int := max lastBrace lastBracket
  let fixed2 :=
    if 0 ≤ lastValid then
      String.mk (t6.take (lastValid.toNat + 1) ++ closersFor (t6.take (lastValid.toNat + 1)))
    else
      String.mk (t6 ++ List.replicate openBrackets.toNat ']' ++
        List.replicate openBraces.toNat '\x7d')
  if jsonParses fixed2 then fixed2 else "\x7b\x7d"

/-- The manual tail-repair of lines 141-226 (the branch taken when both
the verbatim parse and `raw_decode` have failed). -/
def manualRepair (jsonStr : String) : String :=
  let t3 := reSubEnd pat3At (reSubEnd pat2At (reSubEnd pat1At (rstripBy pyWs jsonStr.data)))
  let t5 := repairLoop ((stripSeq154 t3).length + 1) (stripSeq154 t3)
  let openBraces : Int := (t5.count '\x7b' : Int) - (t5.count '\x7d' : Int)
  let openBrackets : Int := (t5.count '[' : Int) - (t5.count ']' : Int)
  let t6 := rstripBy (· == ',') (rstripBy pyWs t5)
  let fixed := String.mk (t6 ++ List.replicate openBrackets.toNat ']' ++
    List.replicate openBraces.toNat '\x7d')
  if jsonParses fixed then fixed
  else aggressiveRepair t6 openBrackets openBraces

/-- `process_json_string_to_valid_json`: return the input if it parses;
else parse a leading value with `raw_decode`, re-serialise it and return
that if the serialisation parses; else repair manually.  The Python
`except` around the `raw_decode` block catches `JSONDecodeError`,
`ValueError` and `TypeError`, so any failure inside it falls through to
the manual repair. -/
def process_json_string_to_valid_json (jsonStr : String) : String :=
  if jsonParses jsonStr then jsonStr
  else
    match rawDecode jsonStr with
    | some (obj, _) =>
      let result := dumpsVal obj
      if jsonParses result then result else manualRepair jsonStr
    | none => manualRepair jsonStr

lemma aggressiveRepair_parses (t6 : List Char) (openBrackets openBraces : Int) :
    jsonParses (aggressiveRepair t6 openBrackets openBraces) = true := by
  simp only [aggressiveRepair]
  by_cases h0 : (0 : Int) ≤
      max ((rfindIdx '\x7d' t6).elim (-1) Int.ofNat) ((rfindIdx ']' t6).elim (-1) Int.ofNat)
  · rw [if_pos h0]
    split
    next h => exact h
    next _ => decide
  · rw [if_neg h0]
    split
    next h => exact h
    next _ => decide

lemma manualRepair_parses (s : String) : jsonParses (manualRepair s) = true := by
  simp only [manualRepair]
  split
  next h => exact h
  next _ => exact aggressiveRepair_parses _ _ _

/-- C2: `process_json_string_to_valid_json` is total (the embedding is a
plain function, and every partial operation of the source occurs behind
the guards that make it defined) and always returns a string accepted by
`json.loads`; each return point of the source either re-parses its value
before returning it or is the constant `"{}"` fallback. -/
theorem C2_recovery_always_returns_parseable (s : String) :
    jsonParses (process_json_string_to_valid_json s) = true := by
  unfold process_json_string_to_valid_json
  split
  next h => exact h
  next _ =>
    cases hr : rawDecode s with
    | some p =>
      obtain ⟨obj, idx⟩ := p
      show jsonParses
        (if jsonParses (dumpsVal obj) then dumpsVal obj else manualRepair s) = true
      split
      next h2 => exact h2
      next _ => exact manualRepair_parses s
    | none => exact manualRepair_parses s

/-- The truncated document of C7: `{"a":1,"b":{"c":2,"d":`. -/
def c7input : String := "\x7b\"a\":1,\"b\":\x7b\"c\":2,\"d\":"

/-- C7: on the truncated input `{"a":1,"b":{"c":2,"d":` the recovery
returns the last-resort `"{}"` (which parses to the empty object), not a
string parsing to `{"a":1,"b":{"c":2}}`: regex 3 (`[,:\s]*"[^"]*$`,
meant for an unterminated string) also matches at the closing quote of
`"c"` because only `:2` follows it, so the repair truncates to
`{"a":1,"b":{"c`, and both close-brace completions fail to parse. -/
theorem C7_recovery_dangling_key_result :
    process_json_string_to_valid_json c7input = "\x7b\x7d" ∧
    loads (process_json_string_to_valid_json c7input) = .ok (.jobj .nil) :=
  ⟨rfl, rfl⟩

/-! ## KeyMapper (src/key_mapper.py) -/

/-- One entry of the MBINCompiler mapping: a dict with the fields
`"Key"` (obfuscated) and `"Value"` (deobfuscated). -/
structure MEntry where
  Key : String
  Value : String

/-- `{m["Key"]: m["Value"] for m in mapping}.get(k)`: in a dict
comprehension a later duplicate `Key` overwrites an earlier one. -/
def keyMapGet (mapping : List MEntry) (k : String) : Option String :=
  (mapping.reverse.find? (fun e => e.Key == k)).map (fun e => e.Value)

/-- `{m["Value"]: m["Key"] for m in mapping}.get(k)` (reverse lookup of
`reverse_map_keys`), later duplicate `Value` wins. -/
def valueMapGet (mapping : List MEntry) (k : String) : Option String :=
  (mapping.reverse.find? (fun e => e.Value == k)).map (fun e => e.Key)

/-- The per-key behaviour of `map_keys` on one dict key:
`mapped_key = key_map.get(key); if mapped_key: ... else key` — the key is
renamed only when the lookup hit is truthy (present and non-empty). -/
def mapKey1 (mapping : List MEntry) (k : String) : String :=
  match keyMapGet mapping k with
  | some v => if v = "" then k else v
  | none => k

/-- The per-key behaviour of `reverse_map_keys` on one dict key. -/
def revKey1 (mapping : List MEntry) (k : String) : String :=
  match valueMapGet mapping k with
  | some v => if v = "" then k else v
  | none => k

/-- Python dict assignment `d[k] = v`: overwrite in place if the key is
present, else append. -/
def objInsert : JsonObj → String → Json → JsonObj
  | .nil, k, v => .cons k v .nil
  | .cons k2 v2 tl, k, v =>
    if k2 = k then .cons k2 v tl else .cons k2 v2 (objInsert tl k v)

mutual
/-- `map_keys` of src/key_mapper.py: lists map elementwise, dicts are
rebuilt entry by entry into a fresh dict with each key renamed by the
(truthy) lookup, other values pass through. -/
def map_keys : Json → List MEntry → Json
  | .jarr xs, mapping => .jarr (mapKeysList xs mapping)
  | .jobj xs, mapping => .jobj (mapKeysObj xs mapping .nil)
  | j, _ => j
def mapKeysList : JsonList → List MEntry → JsonList
  | .nil, _ => .nil
  | .cons x tl, mapping => .cons (map_keys x mapping) (mapKeysList tl mapping)
def mapKeysObj : JsonObj → List MEntry → JsonObj → JsonObj
  | .nil, _, acc => acc
  | .cons k v tl, mapping, acc =>
    mapKeysObj tl mapping (objInsert acc (mapKey1 mapping k) (map_keys v mapping))
end

mutual
/-- `reverse_map_keys` of src/key_mapper.py. -/
def reverse_map_keys : Json → List MEntry → Json
  | .jarr xs, mapping => .jarr (revMapList xs mapping)
  | .jobj xs, mapping => .jobj (revMapObj xs mapping .nil)
  | j, _ => j
def revMapList : JsonList → List MEntry → JsonList
  | .nil, _ => .nil
  | .cons x tl, mapping => .cons (reverse_map_keys x mapping) (revMapList tl mapping)
def revMapObj : JsonObj → List MEntry → JsonObj → JsonObj
  | .nil, _, acc => acc
  | .cons k v tl, mapping, acc =>
    revMapObj tl mapping (objInsert acc (revKey1 mapping k) (reverse_map_keys v mapping))
end

def JsonObj.keys : JsonObj → List String
  | .nil => []
  | .cons k _ tl => k :: tl.keys

/-- The entry list of an object value (and `.nil` on non-objects). -/
def objEntries : Json → JsonObj
  | .jobj xs => xs
  | _ => .nil

mutual
/-- All object keys occurring anywhere in a tree. -/
def treeKeys : Json → List String
  | .jarr xs => treeKeysList xs
  | .jobj xs => treeKeysObj xs
  | _ => []
def treeKeysList : JsonList → List String
  | .nil => []
  | .cons x tl => treeKeys x ++ treeKeysList tl
def treeKeysObj : JsonObj → List String
  | .nil => []
  | .cons k v tl => k :: (treeKeys v ++ treeKeysObj tl)
end

mutual
/-- Every object in the tree has pairwise-distinct keys (always true of
values produced by `json.loads`, whose objects are Python dicts). -/
def nodupKeysB : Json → Bool
  | .jarr xs => nodupKeysL xs
  | .jobj xs => nodupKeysO xs
  | _ => true
def nodupKeysL : JsonList → Bool
  | .nil => true
  | .cons x tl => nodupKeysB x && nodupKeysL tl
def nodupKeysO : JsonObj → Bool
  | .nil => true
  | .cons k v tl => !(tl.keys.contains k) && nodupKeysB v && nodupKeysO tl
end

/-- The collision-free rebuild of one object's entries (what
`map_keys` does when no renamed key collides with another). -/
def mapObjSimple (mapping : List MEntry) : JsonObj → JsonObj
  | .nil => .nil
  | .cons k v tl => .cons (mapKey1 mapping k) (map_keys v mapping) (mapObjSimple mapping tl)

def revObjSimple (mapping : List MEntry) : JsonObj → JsonObj
  | .nil => .nil
  | .cons k v tl => .cons (revKey1 mapping k) (reverse_map_keys v mapping) (revObjSimple mapping tl)

def objAppend : JsonObj → JsonObj → JsonObj
  | .nil, o2 => o2
  | .cons k v tl, o2 => .cons k v (objAppend tl o2)

lemma objAppend_nil_right : ∀ (o : JsonObj), objAppend o .nil = o
  | .nil => rfl
  | .cons k v tl => by simp [objAppend, objAppend_nil_right tl]

lemma objAppend_assoc : ∀ (a : JsonObj) (b c : JsonObj),
    objAppend (objAppend a b) c = objAppend a (objAppend b c)
  | .nil, _, _ => rfl
  | .cons k v tl, b, c => by simp [objAppend, objAppend_assoc tl b c]

lemma keys_objAppend : ∀ (a b : JsonObj), (objAppend a b).keys = a.keys ++ b.keys
  | .nil, _ => rfl
  | .cons k v tl, b => by simp [objAppend, JsonObj.keys, keys_objAppend tl b]

lemma objInsert_fresh : ∀ (acc : JsonObj) (k : String) (v : Json), k ∉ acc.keys →
    objInsert acc k v = objAppend acc (.cons k v .nil)
  | .nil, _, _, _ => rfl
  | .cons k2 v2 tl, k, v, h => by
    simp only [JsonObj.keys, List.mem_cons, not_or] at h
    simp only [objInsert, objAppend]
    rw [if_neg (fun he => h.1 he.symm), objInsert_fresh tl k v h.2]

/-- The hypotheses under which one key of the tree round-trips: the key
is non-empty, its lookup target is non-empty, and the reverse lookup
maps the target back to the key (no shadowing duplicate in either
column of the mapping). -/
def GoodKey (mapping : List MEntry) (k : String) : Prop :=
  k ≠ "" ∧ ∃ v, keyMapGet mapping k = some v ∧ v ≠ "" ∧ valueMapGet mapping v = some k

lemma mapKey1_good {m : List MEntry} {k : String} (h : GoodKey m k) :
    valueMapGet m (mapKey1 m k) = some k := by
  obtain ⟨_, v, hv, hne, hback⟩ := h
  have h1 : mapKey1 m k = v := by simp [mapKey1, hv, hne]
  rw [h1]
  exact hback

lemma revKey1_back {m : List MEntry} {k : String} (h : GoodKey m k) :
    revKey1 m (mapKey1 m k) = k := by
  obtain ⟨hk, v, hv, hne, hback⟩ := h
  have h1 : mapKey1 m k = v := by simp [mapKey1, hv, hne]
  rw [h1]
  simp [revKey1, hback, hk]

lemma mapKey1_inj {m : List MEntry} {k1 k2 : String} (h1 : GoodKey m k1) (h2 : GoodKey m k2)
    (he : mapKey1 m k1 = mapKey1 m k2) : k1 = k2 := by
  have b1 := mapKey1_good h1
  have b2 := mapKey1_good h2
  rw [he, b2] at b1
  injection b1 with b1
  exact b1.symm

lemma keys_mapObjSimple (m : List MEntry) : ∀ (o : JsonObj),
    (mapObjSimple m o).keys = o.keys.map (mapKey1 m)
  | .nil => rfl
  | .cons k v tl => by simp [mapObjSimple, JsonObj.keys, keys_mapObjSimple m tl]

lemma mem_keys_treeKeysObj : ∀ (o : JsonObj) (k : String), k ∈ o.keys → k ∈ treeKeysObj o
  | .nil, k, h => by simp [JsonObj.keys] at h
  | .cons k2 v tl, k, h => by
    simp only [JsonObj.keys, List.mem_cons] at h
    rcases h with rfl | h
    · simp [treeKeysObj]
    · simp [treeKeysObj, mem_keys_treeKeysObj tl k h]

lemma nodupO_keys : ∀ (o : JsonObj), nodupKeysO o = true → o.keys.Nodup
  | .nil, _ => by simp [JsonObj.keys]
  | .cons k v tl, h => by
    simp only [nodupKeysO, Bool.and_eq_true, Bool.not_eq_true'] at h
    simp only [JsonObj.keys, List.nodup_cons]
    refine ⟨fun hmem => ?_, nodupO_keys tl h.2⟩
    have := h.1.1
    rw [List.contains_eq_any_beq] at this
    simp only [List.any_eq_false, beq_iff_eq] at this
    exact this k hmem rfl

lemma mapKeysObj_eq_simple (m : List MEntry) :
    ∀ (o : JsonObj) (acc : JsonObj),
      (∀ k, k ∈ o.keys → mapKey1 m k ∉ acc.keys) →
      (o.keys.map (mapKey1 m)).Nodup →
      mapKeysObj o m acc = objAppend acc (mapObjSimple m o)
  | .nil, acc, _, _ => by simp [mapKeysObj, mapObjSimple, objAppend_nil_right]
  | .cons k v tl, acc, hdisj, hnd => by
    simp only [JsonObj.keys, List.map_cons, List.nodup_cons] at hnd
    show mapKeysObj tl m (objInsert acc (mapKey1 m k) (map_keys v m)) = _
    rw [objInsert_fresh acc _ _ (hdisj k (by simp [JsonObj.keys]))]
    rw [mapKeysObj_eq_simple m tl (objAppend acc (.cons (mapKey1 m k) (map_keys v m) .nil))
      (fun k2 hk2 => by
        rw [keys_objAppend]
        simp only [List.mem_append, JsonObj.keys, List.mem_cons, List.not_mem_nil, or_false,
          not_or]
        exact ⟨hdisj k2 (by simp [JsonObj.keys, hk2]),
          fun he => hnd.1 (he ▸ List.mem_map_of_mem _ hk2)⟩)
      hnd.2]
    rw [objAppend_assoc]
    rfl

lemma revMapObj_eq_simple (m : List MEntry) :
    ∀ (o : JsonObj) (acc : JsonObj),
      (∀ k, k ∈ o.keys → revKey1 m k ∉ acc.keys) →
      (o.keys.map (revKey1 m)).Nodup →
      revMapObj o m acc = objAppend acc (revObjSimple m o)
  | .nil, acc, _, _ => by simp [revMapObj, revObjSimple, objAppend_nil_right]
  | .cons k v tl, acc, hdisj, hnd => by
    simp only [JsonObj.keys, List.map_cons, List.nodup_cons] at hnd
    show revMapObj tl m (objInsert acc (revKey1 m k) (reverse_map_keys v m)) = _
    rw [objInsert_fresh acc _ _ (hdisj k (by simp [JsonObj.keys]))]
    rw [revMapObj_eq_simple m tl (objAppend acc (.cons (revKey1 m k) (reverse_map_keys v m) .nil))
      (fun k2 hk2 => by
        rw [keys_objAppend]
        simp only [List.mem_append, JsonObj.keys, List.mem_cons, List.not_mem_nil, or_false,
          not_or]
        exact ⟨hdisj k2 (by simp [JsonObj.keys, hk2]),
          fun he => hnd.1 (he ▸ List.mem_map_of_mem _ hk2)⟩)
      hnd.2]
    rw [objAppend_assoc]
    rfl

mutual
lemma roundtripJ (m : List MEntry) : ∀ (j : Json),
    (∀ k, k ∈ treeKeys j → GoodKey m k) → nodupKeysB j = true →
    reverse_map_keys (map_keys j m) m = j
  | .jnull, _, _ => rfl
  | .jbool _, _, _ => rfl
  | .jint _, _, _ => rfl
  | .jfloat _, _, _ => rfl
  | .jstr _, _, _ => rfl
  | .jarr xs, hG, hnd => by
    show Json.jarr (revMapList (mapKeysList xs m) m) = .jarr xs
    rw [roundtripL m xs hG hnd]
  | .jobj xs, hG, hnd => by
    have hGO : ∀ k, k ∈ treeKeysObj xs → GoodKey m k := hG
    have hndO : nodupKeysO xs = true := hnd
    have hkeysGood : ∀ k, k ∈ xs.keys → GoodKey m k :=
      fun k hk => hGO k (mem_keys_treeKeysObj xs k hk)
    have hinj : (xs.keys.map (mapKey1 m)).Nodup :=
      (nodupO_keys xs hndO).map_on
        (fun k1 h1 k2 h2 he => mapKey1_inj (hkeysGood k1 h1) (hkeysGood k2 h2) he)
    show Json.jobj (revMapObj (mapKeysObj xs m .nil) m .nil) = .jobj xs
    rw [mapKeysObj_eq_simple m xs .nil (fun k _ => by simp [JsonObj.keys]) hinj]
    rw [show objAppend .nil (mapObjSimple m xs) = mapObjSimple m xs from rfl]
    rw [revMapObj_eq_simple m (mapObjSimple m xs) .nil
      (fun k _ => by simp [JsonObj.keys])
      (by
        rw [keys_mapObjSimple, List.map_map]
        rw [List.map_congr_left
          (fun k hk => show (revKey1 m ∘ mapKey1 m) k = id k from revKey1_back (hkeysGood k hk))]
        simpa using nodupO_keys xs hndO)]
    rw [show objAppend .nil (revObjSimple m (mapObjSimple m xs)) =
      revObjSimple m (mapObjSimple m xs) from rfl]
    rw [roundtripO m xs hGO hndO]
lemma roundtripL (m : List MEntry) : ∀ (xs : JsonList),
    (∀ k, k ∈ treeKeysList xs → GoodKey m k) → nodupKeysL xs = true →
    revMapList (mapKeysList xs m) m = xs
  | .nil, _, _ => rfl
  | .cons x tl, hG, hnd => by
    have hnd' : nodupKeysB x = true ∧ nodupKeysL tl = true := by
      simpa [nodupKeysL, Bool.and_eq_true] using hnd
    show JsonList.cons (reverse_map_keys (map_keys x m) m) (revMapList (mapKeysList tl m) m) =
      .cons x tl
    rw [roundtripJ m x (fun k hk => hG k (by simp [treeKeysList, hk])) hnd'.1,
      roundtripL m tl (fun k hk => hG k (by simp [treeKeysList, hk])) hnd'.2]
lemma roundtripO (m : List MEntry) : ∀ (o : JsonObj),
    (∀ k, k ∈ treeKeysObj o → GoodKey m k) → nodupKeysO o = true →
    revObjSimple m (mapObjSimple m o) = o
  | .nil, _, _ => rfl
  | .cons k v tl, hG, hnd => by
    have hGk : GoodKey m k := hG k (by simp [treeKeysObj])
    have hnd' : nodupKeysB v = true ∧ nodupKeysO tl = true := by
      have := hnd
      simp only [nodupKeysO, Bool.and_eq_true] at this
      exact ⟨this.1.2, this.2⟩
    show JsonObj.cons (revKey1 m (mapKey1 m k)) (reverse_map_keys (map_keys v m) m)
      (revObjSimple m (mapObjSimple m tl)) = .cons k v tl
    rw [revKey1_back hGk,
      roundtripJ m v (fun k2 hk => hG k2 (by simp [treeKeysObj, hk])) hnd'.1,
      roundtripO m tl (fun k2 hk => hG k2 (by simp [treeKeysObj, hk])) hnd'.2]
end

/-- The C4 counterexample tree `{"a": 1}` and mapping
`[{Key:"a",Value:"X"}, {Key:"b",Value:"X"}]` (two entries sharing one
deobfuscated `Value`). -/
def c4tree : Json := .jobj (.cons "a" (.jint 1) .nil)

def c4map : List MEntry := [⟨"a", "X"⟩, ⟨"b", "X"⟩]

/-- C4 counterexample: every key of the tree appears among the mapping's
obfuscated `Key` fields, yet obfuscating the deobfuscation does not
return the original tree: `"a"` is renamed to `"X"`, and the reverse
lookup on `"X"` hits the later entry, giving `{"b": 1}`. -/
theorem C4_counterexample :
    (∀ k, k ∈ treeKeys c4tree → k ∈ c4map.map (fun e => e.Key)) ∧
    reverse_map_keys (map_keys c4tree c4map) c4map ≠ c4tree := by
  refine ⟨by decide, fun h => ?_⟩
  have h2 : (objEntries (reverse_map_keys (map_keys c4tree c4map) c4map)).keys =
      (objEntries c4tree).keys := by rw [h]
  exact absurd h2 (by decide)

/-- C4 amended: the round-trip
`reverse_map_keys (map_keys t m) m = t` holds when every object key `k`
of `t` is non-empty, is mapped to a non-empty target whose reverse
lookup returns `k` again (so no entry is shadowed by a duplicate `Key`
or `Value`), and no object of `t` has duplicate keys (always true of
trees produced by `json.loads`). -/
theorem C4_amended_roundtrip (m : List MEntry) (t : Json)
    (hG : ∀ k, k ∈ treeKeys t → GoodKey m k) (hnd : nodupKeysB t = true) :
    reverse_map_keys (map_keys t m) m = t :=
  roundtripJ m t hG hnd

/-- Witness for the amended C4 at the tree `{"F2P": 1}` with the mapping
`[{Key:"F2P",Value:"Version"}]`. -/
theorem C4_amended_roundtrip_witness :
    reverse_map_keys
      (map_keys (.jobj (.cons "F2P" (.jint 1) .nil)) [⟨"F2P", "Version"⟩])
      [⟨"F2P", "Version"⟩] = .jobj (.cons "F2P" (.jint 1) .nil) :=
  C4_amended_roundtrip [⟨"F2P", "Version"⟩] (.jobj (.cons "F2P" (.jint 1) .nil))
    (fun k hk => by
      have hk' : k = "F2P" := by
        simpa [treeKeys, treeKeysObj] using hk
      subst hk'
      exact ⟨by decide, "Version", rfl, by decide, rfl⟩)
    (by decide)

lemma mem_keys_objInsert_self : ∀ (o : JsonObj) (k : String) (v : Json),
    k ∈ (objInsert o k v).keys
  | .nil, k, v => by simp [objInsert, JsonObj.keys]
  | .cons k2 v2 tl, k, v => by
    simp only [objInsert]
    by_cases h : k2 = k
    · rw [if_pos h]; simp [JsonObj.keys, h]
    · rw [if_neg h]; simp [JsonObj.keys, mem_keys_objInsert_self tl k v]

lemma mem_keys_objInsert_of_mem : ∀ (o : JsonObj) (k k2 : String) (v : Json),
    k2 ∈ o.keys → k2 ∈ (objInsert o k v).keys
  | .nil, _, _, _, h => by simp [JsonObj.keys] at h
  | .cons k3 v3 tl, k, k2, v, h => by
    simp only [JsonObj.keys, List.mem_cons] at h
    simp only [objInsert]
    by_cases he : k3 = k
    · rw [if_pos he]
      rcases h with rfl | h
      · simp [JsonObj.keys]
      · simp [JsonObj.keys, h]
    · rw [if_neg he]
      rcases h with rfl | h
      · simp [JsonObj.keys]
      · simp [JsonObj.keys, mem_keys_objInsert_of_mem tl k k2 v h]

lemma mapKeysObj_mem_acc (m : List MEntry) : ∀ (o acc : JsonObj) (k : String),
    k ∈ acc.keys → k ∈ (mapKeysObj o m acc).keys
  | .nil, _, _, h => h
  | .cons _ _ tl, acc, k, h =>
    mapKeysObj_mem_acc m tl _ k (mem_keys_objInsert_of_mem acc _ k _ h)

lemma mapKeysObj_mem (m : List MEntry) : ∀ (o acc : JsonObj) (k : String),
    k ∈ o.keys → mapKey1 m k ∈ (mapKeysObj o m acc).keys
  | .nil, _, _, h => by simp [JsonObj.keys] at h
  | .cons k2 v tl, acc, k, h => by
    simp only [JsonObj.keys, List.mem_cons] at h
    rcases h with rfl | h
    · exact mapKeysObj_mem_acc m tl _ _ (mem_keys_objInsert_self acc _ _)
    · exact mapKeysObj_mem m tl _ k h

lemma revMapObj_mem_acc (m : List MEntry) : ∀ (o acc : JsonObj) (k : String),
    k ∈ acc.keys → k ∈ (revMapObj o m acc).keys
  | .nil, _, _, h => h
  | .cons _ _ tl, acc, k, h =>
    revMapObj_mem_acc m tl _ k (mem_keys_objInsert_of_mem acc _ k _ h)

lemma revMapObj_mem (m : List MEntry) : ∀ (o acc : JsonObj) (k : String),
    k ∈ o.keys → revKey1 m k ∈ (revMapObj o m acc).keys
  | .nil, _, _, h => by simp [JsonObj.keys] at h
  | .cons k2 v tl, acc, k, h => by
    simp only [JsonObj.keys, List.mem_cons] at h
    rcases h with rfl | h
    · exact revMapObj_mem_acc m tl _ _ (mem_keys_objInsert_self acc _ _)
    · exact revMapObj_mem m tl _ k h

/-- C10: a mapping entry whose lookup target is the empty string is never
applied — `map_keys` leaves a key unchanged when its entry's `Value` is
`""` and `reverse_map_keys` leaves a key unchanged when its entry's
`Key` is `""` (the truthiness guard `if mapped_key:`); consequently no
non-empty key is ever renamed to the empty string, and no key is ever
dropped: the (renamed) form of every key of an object is a key of the
mapped object. -/
theorem C10_empty_target_never_applied (mapping : List MEntry) (k : String) :
    (keyMapGet mapping k = some "" → mapKey1 mapping k = k) ∧
    (valueMapGet mapping k = some "" → revKey1 mapping k = k) ∧
    (k ≠ "" → mapKey1 mapping k ≠ "" ∧ revKey1 mapping k ≠ "") ∧
    (∀ xs : JsonObj, k ∈ xs.keys →
      mapKey1 mapping k ∈ (objEntries (map_keys (.jobj xs) mapping)).keys ∧
      revKey1 mapping k ∈ (objEntries (reverse_map_keys (.jobj xs) mapping)).keys) := by
  refine ⟨fun h => by simp [mapKey1, h], fun h => by simp [revKey1, h], fun hk => ⟨?_, ?_⟩,
    fun xs hmem => ⟨?_, ?_⟩⟩
  · cases hv : keyMapGet mapping k with
    | none => simpa [mapKey1, hv] using hk
    | some v =>
      simp only [mapKey1, hv]
      split
      next => exact hk
      next h => exact h
  · cases hv : valueMapGet mapping k with
    | none => simpa [revKey1, hv] using hk
    | some v =>
      simp only [revKey1, hv]
      split
      next => exact hk
      next h => exact h
  · exact mapKeysObj_mem mapping xs .nil k hmem
  · exact revMapObj_mem mapping xs .nil k hmem

/-- Witness for C10 with the mapping
`[{Key:"F2P",Value:"Version"}, {Key:"e0",Value:""}]` at the keys `"e0"`
(empty target, left unchanged) and `"F2P"` (renamed, stays a key). -/
theorem C10_empty_target_never_applied_witness :
    mapKey1 [⟨"F2P", "Version"⟩, ⟨"e0", ""⟩] "e0" = "e0" ∧
    mapKey1 [⟨"F2P", "Version"⟩, ⟨"e0", ""⟩] "F2P" ≠ "" ∧
    mapKey1 [⟨"F2P", "Version"⟩, ⟨"e0", ""⟩] "F2P" ∈
      (objEntries (map_keys (.jobj (.cons "F2P" (.jint 1) .nil))
        [⟨"F2P", "Version"⟩, ⟨"e0", ""⟩])).keys :=
  ⟨(C10_empty_target_never_applied [⟨"F2P", "Version"⟩, ⟨"e0", ""⟩] "e0").1 (by decide),
    ((C10_empty_target_never_applied [⟨"F2P", "Version"⟩, ⟨"e0", ""⟩] "F2P").2.2.1
      (by decide)).1,
    ((C10_empty_target_never_applied [⟨"F2P", "Version"⟩, ⟨"e0", ""⟩] "F2P").2.2.2
      (.cons "F2P" (.jint 1) .nil) (by decide)).1⟩

/-! ## `bytes.decode('utf-8')` (strict, as Python raises on errors) -/

def utf8Go : Nat → List Char → List Byte → Option (List Char)
  | 0, _, _ => none
  | _ + 1, acc, [] => some acc.reverse
  | fuel + 1, acc, b :: rest =>
    if b < 0x80 then utf8Go fuel (Char.ofNat b :: acc) rest
    else if 0xC2 ≤ b ∧ b ≤ 0xDF then
      match rest with
      | b2 :: rest2 =>
        if 0x80 ≤ b2 ∧ b2 ≤ 0xBF then
          utf8Go fuel (Char.ofNat ((b - 0xC0) * 64 + (b2 - 0x80)) :: acc) rest2
        else none
      | _ => none
    else if 0xE0 ≤ b ∧ b ≤ 0xEF then
      match rest with
      | b2 :: b3 :: rest2 =>
        if (if b = 0xE0 then 0xA0 else 0x80) ≤ b2 ∧ b2 ≤ (if b = 0xED then 0x9F else 0xBF) ∧
            0x80 ≤ b3 ∧ b3 ≤ 0xBF then
          utf8Go fuel (Char.ofNat ((b - 0xE0) * 4096 + (b2 - 0x80) * 64 + (b3 - 0x80)) :: acc)
            rest2
        else none
      | _ => none
    else if 0xF0 ≤ b ∧ b ≤ 0xF4 then
      match rest with
      | b2 :: b3 :: b4 :: rest2 =>
        if (if b = 0xF0 then 0x90 else 0x80) ≤ b2 ∧ b2 ≤ (if b = 0xF4 then 0x8F else 0xBF) ∧
            0x80 ≤ b3 ∧ b3 ≤ 0xBF ∧ 0x80 ≤ b4 ∧ b4 ≤ 0xBF then
          utf8Go fuel
            (Char.ofNat ((b - 0xF0) * 262144 + (b2 - 0x80) * 4096 + (b3 - 0x80) * 64 +
              (b4 - 0x80)) :: acc) rest2
        else none
      | _ => none
    else none

def utf8Decode (bs : List Byte) : Option String :=
  (utf8Go (bs.length + 1) [] bs).map String.mk

/-! ## `extract_json_from_hg` (src/utils/save_extractor.py) -/

def listContainsSub (pat : List Char) : List Char → Bool
  | [] => pat.isPrefixOf ([] : List Char)
  | s@(_ :: t) => pat.isPrefixOf s || listContainsSub pat t

/-- `pat in hay` on Python strings. -/
def containsSub (hay pat : String) : Bool := listContainsSub pat.data hay.data

/-- The brace-matching scan of lines 148-157: from a position holding
`'{'`, find the offset one past the brace that balances it. -/
def braceEnd : List Char → Nat → Nat → Option Nat
  | [], _, _ => none
  | c :: rest, i, cnt =>
    if c = '\x7b' then braceEnd rest (i + 1) (cnt + 1)
    else if c = '\x7d' then
      if cnt = 1 then some (i + 1) else braceEnd rest (i + 1) (cnt - 1)
    else braceEnd rest (i + 1) cnt

/-- Lines 126-167 of src/utils/save_extractor.py: the JSON-parsing stage
of `extract_json_from_hg` on the decompressed UTF-8 text.  A
`JSONDecodeError` whose message holds `Extra data` leads to an
unprotected `raw_decode`; any other parse error leads to a silent
brace-matching repair from the first `'{'`, raising only when no `'{'`
exists, the scan finds no balancing brace, or the truncated slice fails
to parse (the last `json.loads` is not wrapped in a `try`). -/
def extractParseStage (s : String) : Except String Json :=
  match loads s with
  | .ok v => .ok v
  | .error e =>
    if containsSub e "Extra data" then
      match rawDecode s with
      | some (v, _) => .ok v
      | none => .error "uncaught JSONDecodeError from raw_decode"
    else
      match s.data.findIdx? (fun c => c = '\x7b') with
      | none => .error ("Could not find JSON in decompressed data: " ++ e)
      | some jstart =>
        match braceEnd (s.data.drop jstart) 0 0 with
        | some endRel =>
          match loads (String.mk ((s.data.drop jstart).take endRel)) with
          | .ok v => .ok v
          | .error e2 => .error ("uncaught JSONDecodeError: " ++ e2)
        | none => .error ("Could not parse JSON from decompressed data: " ++ e)

/-- `extract_json_from_hg` from the point where the file bytes have been
read (file access is outside the embedding). -/
def extract_json_from_hg_bytes (data : List Byte) : Except String Json :=
  if data.length < 18 then .error "File too short to be a valid save file"
  else
    match decompress_save_file data with
    | .error e => .error e
    | .ok decompressed =>
      if decompressed.length = 0 then
        .error "Failed to decompress file - might not be a valid save file"
      else
        match utf8Decode decompressed with
        | none => .error "Decompressed data is not valid UTF-8"
        | some s => extractParseStage s

/-- A container whose single block decompresses to the text
`xx{"a":1}` — UTF-8, but not JSON, and not an `Extra data` case. -/
def c6data : List Byte := toLE4 MAGIC ++ toLE4 10 ++ toLE4 9 ++ toLE4 0 ++
  [0x90, 120, 120, 123, 34, 97, 34, 58, 49, 125]

/-- C6 counterexample: the decompressed text fails to parse for a reason
other than trailing extra data, yet full extraction silently returns the
brace-repaired tree `{"a":1}` instead of surfacing a parse error. -/
theorem C6_counterexample :
    loads "xx\x7b\"a\":1\x7d" = .error "Expecting value" ∧
    containsSub "Expecting value" "Extra data" = false ∧
    extract_json_from_hg_bytes c6data = .ok (.jobj (.cons "a" (.jint 1) .nil)) :=
  ⟨rfl, rfl, rfl⟩

/-- C6 amended: beyond the verbatim parse and the first-complete-value
parse, `extract_json_from_hg` has a third, silent fallback that returns
the first balanced-brace slice when it parses; a parse error (other than
trailing data) is surfaced only when this repair is impossible — in
particular whenever the text contains no `'{'` at all. -/
theorem C6_amended_error_surfacing (s : String) (e : String)
    (he : loads s = .error e) (hnx : containsSub e "Extra data" = false)
    (hnob : ∀ c ∈ s.data, ¬ c = '\x7b') :
    ∃ msg, extractParseStage s = .error msg := by
  have hfind : s.data.findIdx? (fun c => c = '\x7b') = none := by
    rw [List.findIdx?_eq_none_iff]
    intro c hc
    simp [hnob c hc]
  refine ⟨"Could not find JSON in decompressed data: " ++ e, ?_⟩
  simp only [extractParseStage, he, hnx, hfind, Bool.false_eq_true, if_false]

/-- Witness for the amended C6 at the text `"xy"`. -/
theorem C6_amended_error_surfacing_witness :
    ∃ msg, extractParseStage "xy" = .error msg :=
  C6_amended_error_surfacing "xy" "Expecting value" rfl rfl (by decide)

/-! ## SaveFileManager (src/utils/save_file_manager.py) -/

def JsonList.length : JsonList → Nat
  | .nil => 0
  | .cons _ tl => tl.length + 1

def JsonList.getAt : JsonList → Nat → Option Json
  | .nil, _ => none
  | .cons x _, 0 => some x
  | .cons _ tl, n + 1 => tl.getAt n

def JsonList.setAt : JsonList → Nat → Json → Option JsonList
  | .nil, _, _ => none
  | .cons _ tl, 0, nv => some (.cons nv tl)
  | .cons x tl, n + 1, nv => (tl.setAt n nv).map (.cons x)

def JsonObj.length : JsonObj → Nat
  | .nil => 0
  | .cons _ _ tl => tl.length + 1

/-- Python dict lookup `d[k]` (keys of a loaded dict are unique, so the
first match is the binding). -/
def JsonObj.get : JsonObj → String → Option Json
  | .nil, _ => none
  | .cons k2 v tl, k => if k2 = k then some v else tl.get k

def updateObjKey : JsonObj → String → Json → Option JsonObj
  | .nil, _, _ => none
  | .cons k2 v tl, k, nv =>
    if k2 = k then some (.cons k2 nv tl)
    else (updateObjKey tl k nv).map (.cons k2 v)

/-- Python truthiness of a JSON value (`not self._save_data`).  A float
is falsy when its value is zero; literals are compared textually, which
covers the values `json.loads` produces. -/
def jsonFalsy : Json → Bool
  | .jnull => true
  | .jbool b => !b
  | .jint n => n == 0
  | .jfloat lit => lit == "0.0" || lit == "0" || lit == "-0.0"
  | .jstr s => s == ""
  | .jarr .nil => true
  | .jarr (.cons _ _) => false
  | .jobj .nil => true
  | .jobj (.cons _ _ _) => false

/-- `int(key[1:-1])` (`int()` accepts surrounding whitespace and a
sign). -/
def parsePyInt (cs : List Char) : Option Int :=
  let t := rstripBy pyWs (cs.dropWhile pyWs)
  match t with
  | '-' :: ds => if ds ≠ [] ∧ ds.all (·.isDigit) then some (-(natOfDigits ds : Int)) else none
  | '+' :: ds => if ds ≠ [] ∧ ds.all (·.isDigit) then some (natOfDigits ds : Int) else none
  | ds => if ds ≠ [] ∧ ds.all (·.isDigit) then some (natOfDigits ds : Int) else none

/-- Python list indexing `xs[i]` (negative indices count from the end;
out of range raises, modelled as `none`). -/
def pyListIndex (xs : JsonList) (i : Int) : Option Json :=
  let j := if i < 0 then i + xs.length else i
  if 0 ≤ j ∧ j < (xs.length : Int) then xs.getAt j.toNat else none

/-- One step of the path walk of `_get_bases_array` (lines 98-107): a
`"[i]"`-shaped segment indexes a list, any other segment subscripts a
dict; every Python exception on the way (ValueError from `int`,
KeyError, TypeError, IndexError) is `none`. -/
def navStep (cur : Json) (key : String) : Option Json :=
  if key.startsWith "[" && key.endsWith "]" then
    match parsePyInt ((key.data.drop 1).dropLast), cur with
    | some i, .jarr xs => pyListIndex xs i
    | _, _ => none
  else
    match cur with
    | .jobj o => o.get key
    | _ => none

def navPath : Json → List String → Option Json
  | cur, [] => some cur
  | cur, k :: rest => (navStep cur k).bind (fun c => navPath c rest)

/-- The state of a `SaveFileManager`. -/
structure SaveFileManager where
  save_data : Option Json
  base_path : List String
  has_changes : Bool

/-- `_get_bases_array`: guard (`if not self._save_data or not
self._base_path: raise ValueError`), walk `base_path[:-1]`, then
subscript the final element with the last segment as a plain dict key. -/
def getBasesArray (mgr : SaveFileManager) : Except String Json :=
  match mgr.save_data with
  | none => .error "No save file loaded"
  | some d =>
    if jsonFalsy d || mgr.base_path.isEmpty then .error "No save file loaded"
    else
      match navPath d mgr.base_path.dropLast with
      | none => .error "path navigation failed"
      | some cur =>
        match cur with
        | .jobj o =>
          match o.get (mgr.base_path.getLastD "") with
          | some v => .ok v
          | none => .error "KeyError"
        | _ => .error "TypeError"

/-- Rebuild the tree with the value at `path` replaced by `f` of it
(the functional reading of mutating the aliased array in place). -/
def navUpdate : Json → List String → (Json → Option Json) → Option Json
  | cur, [], f => f cur
  | cur, k :: rest, f =>
    if k.startsWith "[" && k.endsWith "]" then
      match parsePyInt ((k.data.drop 1).dropLast), cur with
      | some i, .jarr xs =>
        let j := if i < 0 then i + xs.length else i
        if 0 ≤ j ∧ j < (xs.length : Int) then
          match xs.getAt j.toNat with
          | some child =>
            (navUpdate child rest f).bind (fun nc => (xs.setAt j.toNat nc).map .jarr)
          | none => none
        else none
      | _, _ => none
    else
      match cur with
      | .jobj o =>
        match o.get k with
        | some child => (navUpdate child rest f).bind (fun nc => (updateObjKey o k nc).map .jobj)
        | none => none
      | _ => none

/-- `SaveFileManager.replace_base(index, new_base_data)` (lines 188-206):
fetch the bases array, bounds-check, and only then overwrite the element
in place and set the pending-change flag.  The returned pair is the
manager state as observed after the call: unchanged whenever an
exception is raised, since the raise precedes every mutation. -/
def replace_base (mgr : SaveFileManager) (index : Int) (newBase : Json) :
    SaveFileManager × Except String Bool :=
  match getBasesArray mgr with
  | .error e => (mgr, .error e)
  | .ok basesJson =>
    match basesJson with
    | .jarr xs =>
      if index < 0 ∨ (xs.length : Int) ≤ index then
        (mgr, .error ("Index " ++ toString index ++ " out of range (array has " ++
          toString xs.length ++ " bases)"))
      else
        match mgr.save_data with
        | none => (mgr, .error "No save file loaded")
        | some d =>
          match navUpdate d mgr.base_path.dropLast (fun container =>
            match container with
            | .jobj o =>
              (xs.setAt index.toNat newBase).bind (fun newArr =>
                (updateObjKey o (mgr.base_path.getLastD "") (.jarr newArr)).map .jobj)
            | _ => none) with
          | some newTree =>
            ({ mgr with save_data := some newTree, has_changes := true }, .ok true)
          | none => (mgr, .error "tree update failed")
    | _ => (mgr, .error "TypeError: bases container is not a list")

/-- C8: on a loaded manager whose bases array has `n` elements, calling
`replace_base` with an index below `0` or at least `n` raises the
out-of-range `IndexError` carrying both the index and the length, and is
atomic: the manager state (tree and pending-change flag) observed after
the call is exactly the state before it. -/
theorem C8_replace_base_out_of_range (mgr : SaveFileManager) (i : Int) (v : Json)
    (xs : JsonList) (hb : getBasesArray mgr = .ok (.jarr xs))
    (hi : i < 0 ∨ (xs.length : Int) ≤ i) :
    replace_base mgr i v =
      (mgr, .error ("Index " ++ toString i ++ " out of range (array has " ++
        toString xs.length ++ " bases)")) := by
  unfold replace_base
  rw [hb]
  show (if i < 0 ∨ (xs.length : Int) ≤ i then _ else _) = _
  rw [if_pos hi]

/-- Witness for C8: a loaded save `{"PersistentPlayerBases": [{}]}` with
one base, index 5. -/
theorem C8_replace_base_out_of_range_witness :
    replace_base
      ⟨some (.jobj (.cons "PersistentPlayerBases" (.jarr (.cons (.jobj .nil) .nil)) .nil)),
        ["PersistentPlayerBases"], false⟩ 5 .jnull =
      (⟨some (.jobj (.cons "PersistentPlayerBases" (.jarr (.cons (.jobj .nil) .nil)) .nil)),
        ["PersistentPlayerBases"], false⟩,
        .error "Index 5 out of range (array has 1 bases)") :=
  C8_replace_base_out_of_range _ 5 .jnull (.cons (.jobj .nil) .nil) rfl (by decide)

/-! ## MappingProvider (src/key_mapper.py, `get_mapping` and helpers)

The file system, the cache file (with its modification-time age) and the
network are an explicit environment.  Writing the downloaded mapping to
the cache is best-effort in the source (failures are swallowed) and does
not affect any return value, so it is not modelled. -/

structure MapEnv where
  /-- `os.path.exists` plus the file contents. -/
  files : String → Option String
  cacheExists : Bool
  cacheContent : String
  /-- Age of the cache file in days (`datetime.now() - mtime`). -/
  cacheAgeDays : Nat
  /-- `urlopen` of the fixed GitHub URL: the body, or `none` for `URLError`. -/
  network : Option String

/-- `len()` of a JSON value where Python defines it (dict, list, str). -/
def pyLen : Json → Option Nat
  | .jarr xs => some xs.length
  | .jobj o => some o.length
  | .jstr s => some s.length
  | _ => none

/-- `is_cache_valid` (lines 43-76): exists, fresh (age not above 7 days),
parses, and has at least one entry under the dual shapes.  (A `Mapping`
field without a `len()` would raise `TypeError` in Python; that
degenerate case is modelled as an invalid cache.) -/
def is_cache_valid (env : MapEnv) : Bool :=
  if !env.cacheExists then false
  else if 7 < env.cacheAgeDays then false
  else
    match loads env.cacheContent with
    | .error _ => false
    | .ok (.jobj o) =>
      match o.get "Mapping" with
      | some m => match pyLen m with
        | some n => decide (0 < n)
        | none => false
      | none => false
    | .ok (.jarr xs) => decide (0 < xs.length)
    | .ok _ => false

/-- `load_cached_mapping` (lines 79-97): dual-shape extraction,
`ValueError` otherwise; a parse error propagates. -/
def load_cached_mapping (env : MapEnv) : Except String Json :=
  match loads env.cacheContent with
  | .error e => .error e
  | .ok (.jobj o) =>
    match o.get "Mapping" with
    | some m => .ok m
    | none => .error "Unexpected cached mapping file format"
  | .ok (.jarr xs) => .ok (.jarr xs)
  | .ok _ => .error "Unexpected cached mapping file format"

/-- The download part of `fetch_mapping` (lines 142-185): parse the
response with the dual-shape rule; a `JSONDecodeError` becomes
`ValueError("Failed to parse mapping JSON")`, an unexpected shape raises
`ValueError` (not caught by the `URLError` handler); on `URLError`, fall
back to even a stale cache when one exists, else `ConnectionError`. -/
def fetchDownload (env : MapEnv) (use_cache : Bool) : Except String Json :=
  match env.network with
  | some body =>
    match loads body with
    | .error e => .error ("Failed to parse mapping JSON: " ++ e)
    | .ok (.jobj o) =>
      match o.get "Mapping" with
      | some m => .ok m
      | none => .error "Unexpected mapping file format"
    | .ok (.jarr xs) => .ok (.jarr xs)
    | .ok _ => .error "Unexpected mapping file format"
  | none =>
    if use_cache && env.cacheExists then
      match load_cached_mapping env with
      | .ok m => .ok m
      | .error _ => .error "Failed to download mapping"
    else .error "Failed to download mapping"

/-- `fetch_mapping` (lines 119-185): valid cache first (a cache that
fails to load after validation falls through to the download), then
download. -/
def fetch_mapping (env : MapEnv) (use_cache : Bool) : Except String Json :=
  if use_cache && is_cache_valid env then
    match load_cached_mapping env with
    | .ok m => .ok m
    | .error _ => fetchDownload env use_cache
  else fetchDownload env use_cache

/-- `load_mapping_from_file` (lines 188-206) applied to the file's
contents: dual-shape extraction, `ValueError` otherwise; a parse error
propagates to the caller. -/
def load_mapping_from_file (content : String) : Except String Json :=
  match loads content with
  | .error e => .error e
  | .ok (.jobj o) =>
    match o.get "Mapping" with
    | some m => .ok m
    | none => .error "Unexpected mapping file format"
  | .ok (.jarr xs) => .ok (.jarr xs)
  | .ok _ => .error "Unexpected mapping file format"

/-- `get_mapping(mapping_file, use_cache)` (lines 286-300):
`if mapping_file and os.path.exists(mapping_file): load_mapping_from_file
else: fetch_mapping`. -/
def get_mapping (env : MapEnv) (mapping_file : Option String) (use_cache : Bool) :
    Except String Json :=
  match mapping_file with
  | some p =>
    if p = "" then fetch_mapping env use_cache
    else
      match env.files p with
      | some content => load_mapping_from_file content
      | none => fetch_mapping env use_cache
  | none => fetch_mapping env use_cache

/-- An environment with no files, no cache, and a network serving one
mapping entry. -/
def c9env : MapEnv :=
  ⟨fun _ => none, false, "", 0, some "[\x7b\"Key\":\"F2P\",\"Value\":\"Version\"\x7d]"⟩

/-- C9 counterexample: with an explicit mapping path that does not exist,
`get_mapping` is not a fatal error — it silently falls back to the
network fetch and returns the downloaded entries. -/
theorem C9_counterexample :
    c9env.files "missing.json" = none ∧
    get_mapping c9env (some "missing.json") true =
      .ok (.jarr (.cons
        (.jobj (.cons "Key" (.jstr "F2P") (.cons "Value" (.jstr "Version") .nil))) .nil)) :=
  ⟨rfl, rfl⟩

/-- C9 amended: when the explicit path is non-empty and the file exists,
`get_mapping` is exactly `load_mapping_from_file` on that file's
contents — failures to parse are fatal for the call and neither the
cache nor the network is consulted; but when the path does not exist (or
is empty), `get_mapping` silently falls back to the cache/network
chain. -/
theorem C9_amended_local_file (env : MapEnv) (p content : String) (use_cache : Bool)
    (hp : p ≠ "") (hf : env.files p = some content) :
    get_mapping env (some p) use_cache = load_mapping_from_file content := by
  show (if p = "" then fetch_mapping env use_cache
    else
      match env.files p with
      | some content => load_mapping_from_file content
      | none => fetch_mapping env use_cache) = load_mapping_from_file content
  rw [if_neg hp, hf]

/-- Witness for the amended C9: a present local file holding `[]`. -/
theorem C9_amended_local_file_witness :
    get_mapping
      ⟨fun q => if q = "m.json" then some "[]" else none, false, "", 0, none⟩
      (some "m.json") true = load_mapping_from_file "[]" :=
  C9_amended_local_file _ "m.json" "[]" true (by decide) (by simp)

end NMSVerify
